import Mathlib

/-!
Verification development for the "Interactive Relationship Explorer" marimo
notebook (`Q3.py`).  The notebook is a linear chain of reactive cells:

* Cell 3 builds two sliders (`n`, `noise`) with fixed bounds and defaults.
* Cell 4 seeds `np.random.default_rng(123)`, draws `n.value` standard-normal
  samples `x`, then `y = 2.5 * x + rng.normal(0, noise.value, size=n.value)`,
  and packs the two columns into a data frame.
* Cell 5 computes the Pearson correlation of the two columns and the
  degree-1 least-squares fit `m, b = np.polyfit(x, y, 1)`.
* Cell 7 renders a markdown report with `corr` to 3 decimals and `m`, `b`
  to 2 decimals, embedding `n.value` and `noise.value`.

Real numbers stand in for Python floats; rationals are used wherever the
computation is exact arithmetic so that concrete instances evaluate.
-/

namespace Q3

/-! ## Pseudorandom source (cell 4, line `rng = np.random.default_rng(123)`)

numpy's `default_rng(seed)` returns a fresh deterministic generator whose
output stream depends only on the seed, independent of any ambient process
state; `Generator.normal(loc, scale, size)` consumes `size` draws of the
underlying standard-normal stream and returns `loc + scale * z` for each
draw `z`.  The bit-level PCG64/ziggurat stream is external library code;
it is modelled by a fixed computable stand-in stream `stdNormal`.  The
claims depend only on determinism, stream-position accounting and the
`loc + scale * z` form, never on the particular numeric values. -/

/-- Stand-in for the standard-normal stream of `np.random.default_rng seed`:
the `i`-th draw of the generator seeded with `seed`. -/
def stdNormal (seed i : ℕ) : ℚ :=
  ((seed * 37 + i * 21 + 5) % 11 : ℕ) - 5

/-- State of a numpy `Generator`: its seed and the current stream position. -/
structure RngState where
  seed : ℕ
  pos : ℕ
  deriving DecidableEq, Repr

/-- `np.random.default_rng seed`: a fresh generator at stream position 0. -/
def defaultRng (seed : ℕ) : RngState := ⟨seed, 0⟩

/-- `rng.normal(loc, scale, size=k)`: the list of `k` values
`loc + scale * z` for the next `k` standard draws `z` of the stream. -/
def draws (s : RngState) (loc scale : ℚ) (k : ℕ) : List ℚ :=
  (List.range k).map fun i => loc + scale * stdNormal s.seed (s.pos + i)

/-- The generator state after consuming `k` draws. -/
def advance (s : RngState) (k : ℕ) : RngState := ⟨s.seed, s.pos + k⟩

/-! ## Cell 4 — data generation -/

/-- A data frame row: an `(x, y)` pair.  `df = pd.DataFrame({"x": x, "y": y})`
is the list of rows obtained by zipping the two columns. -/
abbrev Dataset := List (ℚ × ℚ)

/-- Cell 4 of the notebook.  `ambient` is the surrounding process RNG state
at invocation time; the cell ignores it because it reseeds a fresh
generator with the fixed constant 123 (`rng = np.random.default_rng(123)`),
then draws `x = rng.normal(0, 1, size=nv)` followed by
`y = 2.5 * x + rng.normal(0, sigma, size=nv)`. -/
def generate (ambient : RngState) (nv : ℕ) (sigma : ℚ) : Dataset :=
  let rng := defaultRng 123
  let x := draws rng 0 1 nv
  let rng2 := advance rng nv
  let noiseCol := draws rng2 0 sigma nv
  let y := List.zipWith (fun a e => 5/2 * a + e) x noiseCol
  List.zip x y

/-- The `"x"` column of a data frame. -/
def xcol (d : Dataset) : List ℚ := d.map Prod.fst

/-- The `"y"` column of a data frame. -/
def ycol (d : Dataset) : List ℚ := d.map Prod.snd

/-! ## Cell 5 — summary statistics and the degree-1 fit -/

/-- Mean of a column (0 on the empty column, by the `0 / 0 = 0` convention). -/
def mean (l : List ℚ) : ℚ := l.sum / (l.length : ℚ)

/-- Centered sum of squares `Σ (t - mean l)^2` of a column: the common
numerator of the sample and population variances of `l`. -/
def centeredSum2 (l : List ℚ) : ℚ :=
  (l.map fun t => (t - mean l) ^ 2).sum

/-- Centered sum of products `Σ (xᵢ - x̄) * (yᵢ - ȳ)` over the rows: the
common numerator of the sample and population covariances. -/
def centeredProdSum (d : Dataset) : ℚ :=
  (d.map fun p => (p.1 - mean (xcol d)) * (p.2 - mean (ycol d))).sum

/-- `df["x"].corr(df["y"])`: the Pearson correlation coefficient.  pandas
computes `cov / (std_x * std_y)` with `n - 1` denominators; those factors
cancel, leaving the centered-sums form used here. -/
noncomputable def corr (d : Dataset) : ℝ :=
  (centeredProdSum d : ℝ) /
    (Real.sqrt (centeredSum2 (xcol d)) * Real.sqrt (centeredSum2 (ycol d)))

/-- Slope returned by `np.polyfit(x, y, 1)`: the first component of the
solution of the degree-1 least-squares normal equations
`[[Σx², Σx], [Σx, n]] · [m, b] = [Σxy, Σy]`, in closed form. -/
def polyfitSlope (d : Dataset) : ℚ :=
  ((d.length : ℚ) * (d.map fun p => p.1 * p.2).sum - (xcol d).sum * (ycol d).sum) /
    ((d.length : ℚ) * ((xcol d).map fun t => t ^ 2).sum - (xcol d).sum ^ 2)

/-- Intercept returned by `np.polyfit(x, y, 1)`: the second component of the
normal-equations solution. -/
def polyfitIntercept (d : Dataset) : ℚ :=
  ((ycol d).sum - polyfitSlope d * (xcol d).sum) / (d.length : ℚ)

/-- `FitResult = {correlation, slope, intercept}` produced by cell 5. -/
structure FitResult where
  correlation : ℝ
  slope : ℚ
  intercept : ℚ

/-- Cell 5 of the notebook: `corr = df["x"].corr(df["y"])` and
`m, b = np.polyfit(df["x"], df["y"], 1)`.  The cell performs no input
validation: it is total on all data frames. -/
noncomputable def analyze (d : Dataset) : FitResult :=
  ⟨corr d, polyfitSlope d, polyfitIntercept d⟩

/-! ## Reference (spec-side) definitions for the refinement claim C3.
These two definitions follow the spec's words — "slope = Cov(x,y)/Var(x),
intercept = mean(y) − slope·mean(x)" — with the textbook population
covariance and variance, to be compared with `polyfitSlope` and
`polyfitIntercept` above. -/

/-- Population covariance `Cov(x, y)` of the two columns, per the spec. -/
def specCov (d : Dataset) : ℚ := centeredProdSum d / (d.length : ℚ)

/-- Population variance `Var(l)` of a column, per the spec. -/
def specVar (l : List ℚ) : ℚ := centeredSum2 l / (l.length : ℚ)

/-- The spec's ordinary-least-squares slope `Cov(x,y) / Var(x)`. -/
def specSlope (d : Dataset) : ℚ := specCov d / specVar (xcol d)

/-- The spec's ordinary-least-squares intercept `mean(y) − slope·mean(x)`. -/
def specIntercept (d : Dataset) : ℚ :=
  mean (ycol d) - specSlope d * mean (xcol d)

/-! ## Sum-expansion lemmas -/

/-- Expansion of a centered sum of squares into raw power sums. -/
theorem sum_map_sub_sq (l : List ℚ) (c : ℚ) :
    (l.map fun t => (t - c) ^ 2).sum
      = (l.map fun t => t ^ 2).sum - 2 * c * l.sum + l.length * c ^ 2 := by
  induction l with
  | nil => simp
  | cons a t ih =>
    simp only [List.map_cons, List.sum_cons, List.length_cons, ih]
    push_cast
    ring

/-- Expansion of a centered sum of products into raw sums over the rows. -/
theorem sum_map_sub_mul (d : Dataset) (a b : ℚ) :
    (d.map fun p => (p.1 - a) * (p.2 - b)).sum
      = (d.map fun p => p.1 * p.2).sum - b * (d.map Prod.fst).sum
          - a * (d.map Prod.snd).sum + d.length * (a * b) := by
  induction d with
  | nil => simp
  | cons p t ih =>
    simp only [List.map_cons, List.sum_cons, List.length_cons, ih]
    push_cast
    ring

/-- On a nonempty column, the centered sum of squares equals
`Σ t² − (Σ t)² / n`. -/
theorem centeredSum2_eq (l : List ℚ) (h : ((l.length : ℚ)) ≠ 0) :
    centeredSum2 l = (l.map fun t => t ^ 2).sum - l.sum ^ 2 / (l.length : ℚ) := by
  unfold centeredSum2 mean
  rw [sum_map_sub_sq]
  field_simp
  ring

/-- On a nonempty data frame, the centered sum of products equals
`Σ xy − (Σ x)(Σ y) / n`. -/
theorem centeredProdSum_eq (d : Dataset) (h : ((d.length : ℚ)) ≠ 0) :
    centeredProdSum d = (d.map fun p => p.1 * p.2).sum
      - (xcol d).sum * (ycol d).sum / (d.length : ℚ) := by
  unfold centeredProdSum mean xcol ycol
  rw [sum_map_sub_mul]
  simp only [List.length_map]
  field_simp
  ring

/-! ## Column lemmas for the generated data frame -/

/-- The `"x"` column of the generated frame is exactly the first block of
`nv` standard draws of the freshly seeded generator. -/
theorem xcol_generate (ambient : RngState) (nv : ℕ) (sigma : ℚ) :
    xcol (generate ambient nv sigma) = draws (defaultRng 123) 0 1 nv := by
  unfold generate xcol
  apply List.map_fst_zip
  simp [draws, List.length_zipWith]

/-- The `"y"` column of the generated frame is the elementwise
`2.5 * x + noise` combination of the draws. -/
theorem ycol_generate (ambient : RngState) (nv : ℕ) (sigma : ℚ) :
    ycol (generate ambient nv sigma) =
      List.zipWith (fun a e => 5/2 * a + e) (draws (defaultRng 123) 0 1 nv)
        (draws (advance (defaultRng 123) nv) 0 sigma nv) := by
  unfold generate ycol
  apply List.map_snd_zip
  simp [draws, List.length_zipWith]

/-- C1.  For every pair of ambient process states (two invocations of the
cell, in any order, with anything having happened in between) and identical
slider inputs, cell 4 produces identical data frames, and everything cell 5
derives from them (correlation, slope, intercept) coincides as well: the
cell reseeds its generator with the fixed constant 123 on each invocation,
so its output depends only on `(nv, sigma)`. -/
theorem generate_deterministic (amb1 amb2 : RngState) (nv : ℕ) (sigma : ℚ) :
    generate amb1 nv sigma = generate amb2 nv sigma ∧
      analyze (generate amb1 nv sigma) = analyze (generate amb2 nv sigma) :=
  ⟨rfl, rfl⟩

/-- C2.  For every sample size `nv` and noise level, both columns of the
generated data frame have length exactly `nv`. -/
theorem generate_length (ambient : RngState) (nv : ℕ) (sigma : ℚ) :
    (xcol (generate ambient nv sigma)).length = nv ∧
      (ycol (generate ambient nv sigma)).length = nv := by
  constructor <;>
    simp [generate, xcol, ycol, draws, List.length_zipWith]

/-- C4 counterexample.  At sample size 0 the generation cell does not fail:
it silently returns the empty data frame (there is no validation and no
`InvalidParameterError` anywhere in the code). -/
theorem generate_zero_returns_empty :
    generate (defaultRng 0) 0 (1/2) = ([] : Dataset) := rfl

/-- C4 amended.  Cell 4 performs no input validation: for sample size 0
(the only representable non-positive size) it silently returns an empty
data frame instead of raising `InvalidParameterError`; the slider's lower
bound of 100 is what keeps non-positive sizes out of the app. -/
theorem generate_zero_silent (ambient : RngState) (sigma : ℚ) :
    generate ambient 0 sigma = ([] : Dataset) := rfl

/-- C10.  The `"x"` column depends only on the sample size, never on the
noise level: `x` is drawn from the freshly seeded generator before any
noise draw, and `sigma` only scales the later noise draws, so two runs
with the same `nv` and different `sigma` have identical `x` columns. -/
theorem xcol_independent_of_sigma (amb1 amb2 : RngState) (nv : ℕ)
    (sigma1 sigma2 : ℚ) :
    xcol (generate amb1 nv sigma1) = xcol (generate amb2 nv sigma2) := by
  rw [xcol_generate, xcol_generate]

/-- The polyfit slope is the ratio of centered sums whenever the data frame
is nonempty. -/
theorem polyfitSlope_eq_centered (d : Dataset) (hN : ((d.length : ℚ)) ≠ 0)
    (hv : centeredSum2 (xcol d) ≠ 0) :
    polyfitSlope d = centeredProdSum d / centeredSum2 (xcol d) := by
  have hxlen : (((xcol d).length : ℚ)) = ((d.length : ℚ)) := by simp [xcol]
  have hCS : centeredSum2 (xcol d)
      = ((xcol d).map fun t => t ^ 2).sum - (xcol d).sum ^ 2 / (d.length : ℚ) := by
    rw [centeredSum2_eq (xcol d) (by rw [hxlen]; exact hN), hxlen]
  have hv' : ((xcol d).map fun t => t ^ 2).sum - (xcol d).sum ^ 2 / (d.length : ℚ) ≠ 0 :=
    hCS ▸ hv
  have hden : (d.length : ℚ) * ((xcol d).map fun t => t ^ 2).sum - (xcol d).sum ^ 2 ≠ 0 := by
    intro hzero
    apply hv'
    field_simp
    linear_combination hzero
  unfold polyfitSlope
  rw [centeredProdSum_eq d hN, hCS]
  rw [div_eq_div_iff hden hv']
  field_simp
  ring

/-- C3.  On every data frame with at least 2 rows and nonzero `x` variance,
the slope and intercept of `np.polyfit(x, y, 1)` (the degree-1 least-squares
normal-equations solution) agree with the reference ordinary-least-squares
definitions `slope = Cov(x,y)/Var(x)` and
`intercept = mean(y) − slope·mean(x)`. -/
theorem polyfit_eq_ols (d : Dataset) (h2 : 2 ≤ d.length)
    (hv : centeredSum2 (xcol d) ≠ 0) :
    polyfitSlope d = specSlope d ∧ polyfitIntercept d = specIntercept d := by
  have hN : ((d.length : ℚ)) ≠ 0 := Nat.cast_ne_zero.mpr (by omega)
  have hxlen : (((xcol d).length : ℚ)) = ((d.length : ℚ)) := by simp [xcol]
  have hylen : (((ycol d).length : ℚ)) = ((d.length : ℚ)) := by simp [ycol]
  have hspec : specSlope d = centeredProdSum d / centeredSum2 (xcol d) := by
    unfold specSlope specCov specVar
    rw [hxlen]
    rw [div_div_div_cancel_right₀ hN]
  have hslope : polyfitSlope d = specSlope d := by
    rw [hspec, polyfitSlope_eq_centered d hN hv]
  refine ⟨hslope, ?_⟩
  unfold polyfitIntercept specIntercept mean
  rw [hslope, hxlen, hylen]
  field_simp

/-- C3 witness: a concrete 2-row frame with distinct `x` values on which the
polyfit and reference OLS coefficients coincide. -/
theorem polyfit_eq_ols_witness :
    2 ≤ ([((0:ℚ), (0:ℚ)), ((1:ℚ), (1:ℚ))] : Dataset).length ∧
      centeredSum2 (xcol ([((0:ℚ), (0:ℚ)), ((1:ℚ), (1:ℚ))] : Dataset)) ≠ 0 ∧
      (polyfitSlope ([((0:ℚ), (0:ℚ)), ((1:ℚ), (1:ℚ))] : Dataset)
          = specSlope ([((0:ℚ), (0:ℚ)), ((1:ℚ), (1:ℚ))] : Dataset) ∧
        polyfitIntercept ([((0:ℚ), (0:ℚ)), ((1:ℚ), (1:ℚ))] : Dataset)
          = specIntercept ([((0:ℚ), (0:ℚ)), ((1:ℚ), (1:ℚ))] : Dataset)) :=
  ⟨by decide, by norm_num [centeredSum2, xcol, mean],
    polyfit_eq_ols _ (by decide) (by norm_num [centeredSum2, xcol, mean])⟩

/-! ## Cauchy–Schwarz and the correlation bound -/

/-- Lagrange cross-term identity used in the inductive Cauchy–Schwarz
argument: `Σ (a·yᵢ − b·xᵢ)² = a²·Σy² + b²·Σx² − 2ab·Σxy` over the rows. -/
theorem lagrange_cross (t : List (ℚ × ℚ)) (a b : ℚ) :
    (t.map fun q => (a * q.2 - b * q.1) ^ 2).sum
      = a ^ 2 * (t.map fun q => q.2 ^ 2).sum
          + b ^ 2 * (t.map fun q => q.1 ^ 2).sum
          - 2 * a * b * (t.map fun q => q.1 * q.2).sum := by
  induction t with
  | nil => simp
  | cons q s ih =>
    simp only [List.map_cons, List.sum_cons, ih]
    ring

/-- Sums of squares of either component over a list of rows are nonnegative. -/
theorem sum_sq_fst_nonneg (t : List (ℚ × ℚ)) :
    0 ≤ (t.map fun q => q.1 ^ 2).sum :=
  List.sum_nonneg fun x hx => by
    obtain ⟨q, _, rfl⟩ := List.mem_map.mp hx
    positivity

/-- Sums of squares of the second component are nonnegative. -/
theorem sum_sq_snd_nonneg (t : List (ℚ × ℚ)) :
    0 ≤ (t.map fun q => q.2 ^ 2).sum :=
  List.sum_nonneg fun x hx => by
    obtain ⟨q, _, rfl⟩ := List.mem_map.mp hx
    positivity

/-- Cauchy–Schwarz inequality for a list of pairs of rationals:
`(Σ xᵢyᵢ)² ≤ (Σ xᵢ²)(Σ yᵢ²)`. -/
theorem cs_list (L : List (ℚ × ℚ)) :
    ((L.map fun p => p.1 * p.2).sum) ^ 2
      ≤ ((L.map fun p => p.1 ^ 2).sum) * ((L.map fun p => p.2 ^ 2).sum) := by
  induction L with
  | nil => simp
  | cons p t ih =>
    have hP := sum_sq_fst_nonneg t
    have hQ := sum_sq_snd_nonneg t
    have haux : 0 ≤ (t.map fun q => (p.1 * q.2 - p.2 * q.1) ^ 2).sum :=
      List.sum_nonneg fun x hx => by
        obtain ⟨q, _, rfl⟩ := List.mem_map.mp hx
        positivity
    rw [lagrange_cross] at haux
    simp only [List.map_cons, List.sum_cons]
    nlinarith [ih, haux, hP, hQ]

/-- Cauchy–Schwarz for the centered columns of a data frame. -/
theorem centered_cauchy_schwarz (d : Dataset) :
    centeredProdSum d ^ 2 ≤ centeredSum2 (xcol d) * centeredSum2 (ycol d) := by
  have h := cs_list (d.map fun p => (p.1 - mean (xcol d), p.2 - mean (ycol d)))
  unfold centeredProdSum centeredSum2
  unfold xcol ycol
  simpa [List.map_map, Function.comp] using h

/-- The centered sum of squares of any column is nonnegative. -/
theorem centeredSum2_nonneg (l : List ℚ) : 0 ≤ centeredSum2 l :=
  List.sum_nonneg fun x hx => by
    obtain ⟨t, _, rfl⟩ := List.mem_map.mp hx
    positivity

/-- C6.  On every data frame with at least 2 rows and nonzero `x` variance,
the Pearson correlation computed by cell 5 satisfies `|corr| ≤ 1`. -/
theorem corr_abs_le_one (d : Dataset) (h2 : 2 ≤ d.length)
    (hv : centeredSum2 (xcol d) ≠ 0) : |corr d| ≤ 1 := by
  have hP2 : ((centeredProdSum d : ℝ)) ^ 2
      ≤ ((centeredSum2 (xcol d) : ℝ)) * ((centeredSum2 (ycol d) : ℝ)) := by
    exact_mod_cast centered_cauchy_schwarz d
  have hX0 : (0 : ℝ) ≤ ((centeredSum2 (xcol d) : ℝ)) := by
    exact_mod_cast centeredSum2_nonneg (xcol d)
  have hY0 : (0 : ℝ) ≤ ((centeredSum2 (ycol d) : ℝ)) := by
    exact_mod_cast centeredSum2_nonneg (ycol d)
  have habs : |((centeredProdSum d : ℝ))|
      ≤ Real.sqrt (centeredSum2 (xcol d)) * Real.sqrt (centeredSum2 (ycol d)) := by
    rw [← Real.sqrt_sq_eq_abs, ← Real.sqrt_mul hX0]
    exact Real.sqrt_le_sqrt hP2
  unfold corr
  rcases eq_or_ne (Real.sqrt (centeredSum2 (xcol d)) * Real.sqrt (centeredSum2 (ycol d))) 0
      with hz | hz
  · rw [hz, div_zero, abs_zero]
    exact zero_le_one
  · have hpos : 0 < Real.sqrt (centeredSum2 (xcol d)) * Real.sqrt (centeredSum2 (ycol d)) := by
      have : 0 ≤ Real.sqrt (centeredSum2 (xcol d)) * Real.sqrt (centeredSum2 (ycol d)) := by
        positivity
      exact lt_of_le_of_ne this (Ne.symm hz)
    rw [abs_div, abs_of_pos hpos]
    exact (div_le_one hpos).mpr habs

/-- C6 witness: a concrete 2-row frame with nonzero `x` variance on which
the correlation-bound theorem applies. -/
theorem corr_abs_le_one_witness :
    2 ≤ ([((0:ℚ), (1:ℚ)), ((2:ℚ), (5:ℚ))] : Dataset).length ∧
      centeredSum2 (xcol ([((0:ℚ), (1:ℚ)), ((2:ℚ), (5:ℚ))] : Dataset)) ≠ 0 ∧
      |corr ([((0:ℚ), (1:ℚ)), ((2:ℚ), (5:ℚ))] : Dataset)| ≤ 1 :=
  ⟨by decide, by norm_num [centeredSum2, xcol, mean],
    corr_abs_le_one _ (by decide) (by norm_num [centeredSum2, xcol, mean])⟩

/-! ## C5: cell 5 performs no validation -/

/-- C5 counterexample.  On a one-row data frame (fewer than 2 points) the
analysis cell does not fail with `InsufficientDataError`: it returns an
ordinary `FitResult` (correlation 0, slope 0, intercept 1 under the
exact-arithmetic `x / 0 = 0` convention standing in for NumPy's NaN /
rank-deficient output). -/
theorem analyze_single_point_returns_fit :
    ([((1:ℚ), (2:ℚ))] : Dataset).length < 2 ∧
      analyze ([((1:ℚ), (2:ℚ))] : Dataset) = ⟨0, 0, 2⟩ := by
  refine ⟨by decide, ?_⟩
  have hc : corr ([((1:ℚ), (2:ℚ))] : Dataset) = 0 := by
    unfold corr
    norm_num [centeredProdSum, mean, xcol, ycol]
  have hs : polyfitSlope ([((1:ℚ), (2:ℚ))] : Dataset) = 0 := by
    norm_num [polyfitSlope, xcol, ycol]
  have hi : polyfitIntercept ([((1:ℚ), (2:ℚ))] : Dataset) = 2 := by
    norm_num [polyfitIntercept, hs, xcol, ycol]
  unfold analyze
  rw [hc, hs, hi]

/-- C5 amended.  Cell 5 performs no input validation: on a degenerate data
frame (fewer than 2 rows, or zero `x` variance) it still returns a
`FitResult` rather than failing, and the correlation field it returns is 0
— the exact-arithmetic image of the `0 / 0` that the floating-point code
turns into NaN. -/
theorem analyze_degenerate_returns_fit (d : Dataset)
    (h : d.length < 2 ∨ centeredSum2 (xcol d) = 0) :
    (analyze d).correlation = 0 := by
  have hc : corr d = 0 := by
    rcases h with h | h
    · have hnum : centeredProdSum d = 0 := by
        rcases d with _ | ⟨p, rest⟩
        · simp [centeredProdSum]
        · rcases rest with _ | ⟨q, t⟩
          · simp [centeredProdSum, mean, xcol, ycol]
          · simp only [List.length_cons] at h
            omega
      unfold corr
      simp [hnum]
    · unfold corr
      simp [h]
  simpa [analyze] using hc

/-- C5 witness: the amended theorem applied to a concrete one-row frame. -/
theorem analyze_degenerate_witness :
    (([((2:ℚ), (3:ℚ))] : Dataset).length < 2 ∨
        centeredSum2 (xcol ([((2:ℚ), (3:ℚ))] : Dataset)) = 0) ∧
      (analyze ([((2:ℚ), (3:ℚ))] : Dataset)).correlation = 0 :=
  ⟨Or.inl (by decide), analyze_degenerate_returns_fit _ (Or.inl (by decide))⟩

/-! ## C7: the noiseless scenario -/

/-- Multiplying a column by a constant multiplies its sum. -/
theorem sum_map_const_mul (l : List ℚ) (c : ℚ) :
    (l.map fun t => c * t).sum = c * l.sum := by
  induction l with
  | nil => simp
  | cons a t ih =>
    simp only [List.map_cons, List.sum_cons, ih]
    ring

/-- Zipping `fun a e => c * a + e` against an all-zero second column of
sufficient length is just scaling the first column. -/
theorem zipWith_const_zero {β : Type} (c : ℚ) (l : List ℚ) (r : List β)
    (h : l.length ≤ r.length) :
    List.zipWith (fun a e => c * a + e) l (r.map fun _ => (0:ℚ))
      = l.map fun a => c * a := by
  induction l generalizing r with
  | nil => simp
  | cons a t ih =>
    cases r with
    | nil => simp at h
    | cons b s =>
      simp only [List.map_cons, List.zipWith_cons_cons, add_zero]
      rw [ih s (by simpa using h)]

/-- With `sigma = 0` the noise draws contribute nothing, so the generated
frame is exactly `zip x (map (2.5 * ·) x)`. -/
theorem generate_zero_noise_eq (amb : RngState) (nv : ℕ) :
    generate amb nv 0
      = List.zip (draws (defaultRng 123) 0 1 nv)
          ((draws (defaultRng 123) 0 1 nv).map fun a => 5/2 * a) := by
  simp only [generate]
  have hz : draws (advance (defaultRng 123) nv) 0 0 nv
      = (List.range nv).map fun _ => (0:ℚ) := by
    unfold draws
    apply List.map_congr_left
    intro i _
    ring
  rw [hz, zipWith_const_zero (5/2) (draws (defaultRng 123) 0 1 nv)
    (List.range nv) (by simp [draws])]

/-- A pair drawn from `zip l (l.map f)` satisfies `p.2 = f p.1`. -/
theorem snd_eq_of_mem_zip_map (l : List ℚ) (f : ℚ → ℚ) :
    ∀ p ∈ List.zip l (l.map f), p.2 = f p.1 := by
  induction l with
  | nil => simp
  | cons a t ih =>
    intro p hp
    simp only [List.map_cons, List.zip_cons_cons, List.mem_cons] at hp
    rcases hp with rfl | hp
    · rfl
    · exact ih p hp

/-- A sum of nonnegative rationals vanishes only if every term vanishes. -/
theorem eq_zero_of_mem_of_sum_nonneg_eq_zero (l : List ℚ)
    (hpos : ∀ x ∈ l, 0 ≤ x) (h : l.sum = 0) : ∀ x ∈ l, x = 0 := by
  induction l with
  | nil => simp
  | cons a t ih =>
    have hta : 0 ≤ a := hpos a (List.mem_cons_self a t)
    have htt : 0 ≤ t.sum := List.sum_nonneg fun x hx => hpos x (List.mem_cons_of_mem a hx)
    simp only [List.sum_cons] at h
    have ha : a = 0 := by linarith
    have ht : t.sum = 0 := by linarith
    intro x hx
    rcases List.mem_cons.mp hx with rfl | hx
    · exact ha
    · exact ih (fun y hy => hpos y (List.mem_cons_of_mem a hy)) ht x hx

/-- If the centered sum of squares of a column vanishes, every entry equals
the mean: a column with two distinct entries has nonzero variance. -/
theorem all_eq_mean_of_centeredSum2_eq_zero (l : List ℚ)
    (h : centeredSum2 l = 0) : ∀ t ∈ l, t = mean l := by
  intro t ht
  have hmem : (t - mean l) ^ 2 ∈ l.map fun t => (t - mean l) ^ 2 :=
    List.mem_map.mpr ⟨t, ht, rfl⟩
  have hz := eq_zero_of_mem_of_sum_nonneg_eq_zero _
    (fun x hx => by
      obtain ⟨u, _, rfl⟩ := List.mem_map.mp hx
      positivity) h _ hmem
  have h0 : t - mean l = 0 :=
    (pow_eq_zero_iff (by norm_num : (2:ℕ) ≠ 0)).mp hz
  linarith

/-- A data frame whose rows all satisfy `y = c * x` with `c > 0` and whose
`x` column has nonzero variance has Pearson correlation exactly 1. -/
theorem corr_eq_one_of_linear (d : Dataset) (c : ℚ) (hc : 0 < c)
    (hlin : ∀ p ∈ d, p.2 = c * p.1)
    (hv : centeredSum2 (xcol d) ≠ 0) : corr d = 1 := by
  have hy : ycol d = (xcol d).map fun t => c * t := by
    unfold ycol xcol
    rw [List.map_map]
    exact List.map_congr_left fun p hp => hlin p hp
  have hm : mean ((xcol d).map fun t => c * t) = c * mean (xcol d) := by
    unfold mean
    rw [sum_map_const_mul, List.length_map, mul_div_assoc]
  have hmy : mean (ycol d) = c * mean (xcol d) := by rw [hy, hm]
  have hCP : centeredProdSum d = c * centeredSum2 (xcol d) := by
    unfold centeredProdSum
    rw [hmy]
    have hstep : ∀ p ∈ d,
        (p.1 - mean (xcol d)) * (p.2 - c * mean (xcol d))
          = c * ((p.1 - mean (xcol d)) ^ 2) := fun p hp => by
      rw [hlin p hp]; ring
    rw [List.map_congr_left hstep, List.sum_map_mul_left]
    unfold centeredSum2 xcol
    rw [List.map_map]
    rfl
  have hYY : centeredSum2 (ycol d) = c ^ 2 * centeredSum2 (xcol d) := by
    unfold centeredSum2
    rw [hy, hm, List.map_map]
    have hstep : ∀ t ∈ xcol d,
        ((fun t => (t - c * mean (xcol d)) ^ 2) ∘ fun t => c * t) t
          = c ^ 2 * ((t - mean (xcol d)) ^ 2) := fun t _ => by
      simp only [Function.comp]
      ring
    rw [List.map_congr_left hstep, List.sum_map_mul_left]
  unfold corr
  rw [hCP, hYY]
  push_cast
  have hX0 : (0:ℝ) ≤ ((centeredSum2 (xcol d) : ℚ) : ℝ) := by
    exact_mod_cast centeredSum2_nonneg (xcol d)
  have hXne : ((centeredSum2 (xcol d) : ℚ) : ℝ) ≠ 0 := by
    exact_mod_cast hv
  have hcR : (0:ℝ) < ((c : ℚ) : ℝ) := by exact_mod_cast hc
  rw [show ((c:ℝ)) ^ 2 * ((centeredSum2 (xcol d) : ℚ) : ℝ)
        = ((c:ℝ)) ^ 2 * ((centeredSum2 (xcol d) : ℚ) : ℝ) from rfl,
    Real.sqrt_mul (by positivity : (0:ℝ) ≤ ((c:ℝ)) ^ 2),
    Real.sqrt_sq hcR.le]
  rw [show Real.sqrt ((centeredSum2 (xcol d) : ℚ) : ℝ)
        * (((c:ℝ)) * Real.sqrt ((centeredSum2 (xcol d) : ℚ) : ℝ))
      = ((c:ℝ)) * (Real.sqrt ((centeredSum2 (xcol d) : ℚ) : ℝ)
          * Real.sqrt ((centeredSum2 (xcol d) : ℚ) : ℝ)) from by ring,
    Real.mul_self_sqrt hX0]
  exact div_self (by positivity)

/-- The first two standard draws of the seed-123 stream are distinct. -/
theorem stdNormal_first_two_distinct : stdNormal 123 0 ≠ stdNormal 123 1 := by
  norm_num [stdNormal]

/-- The `x` column generated at sample size 1000 has nonzero variance. -/
theorem generate_1000_x_variance_ne_zero (amb : RngState) :
    centeredSum2 (xcol (generate amb 1000 0)) ≠ 0 := by
  intro h0
  have hall := all_eq_mean_of_centeredSum2_eq_zero _ h0
  rw [xcol_generate] at hall
  have h0mem : (0:ℚ) + 1 * stdNormal 123 (0 + 0)
      ∈ draws (defaultRng 123) 0 1 1000 :=
    List.mem_map.mpr ⟨0, by simp, rfl⟩
  have h1mem : (0:ℚ) + 1 * stdNormal 123 (0 + 1)
      ∈ draws (defaultRng 123) 0 1 1000 :=
    List.mem_map.mpr ⟨1, by simp, rfl⟩
  have e0 := hall _ h0mem
  have e1 := hall _ h1mem
  apply stdNormal_first_two_distinct
  have : (0:ℚ) + 1 * stdNormal 123 (0 + 0) = 0 + 1 * stdNormal 123 (0 + 1) :=
    e0.trans e1.symm
  simpa using this

/-- C7.  At sample size 1000 and noise 0, every generated row satisfies
`y = 2.5 * x` exactly (the scale-0 noise term contributes nothing), and the
Pearson correlation of the generated frame is exactly 1 — hence 1.000 when
rendered to 3 decimals. -/
theorem noiseless_rows_and_corr_one (amb : RngState) :
    (∀ p ∈ generate amb 1000 0, p.2 = 5/2 * p.1) ∧
      corr (generate amb 1000 0) = 1 := by
  have hrows : ∀ p ∈ generate amb 1000 0, p.2 = 5/2 * p.1 := by
    intro p hp
    rw [generate_zero_noise_eq] at hp
    exact snd_eq_of_mem_zip_map _ _ p hp
  exact ⟨hrows, corr_eq_one_of_linear _ (5/2) (by norm_num) hrows
    (generate_1000_x_variance_ne_zero amb)⟩

/-! ## Cell 3 — UI controls -/

/-- A `mo.ui.slider(start, stop, step, value, label)` control. -/
structure Slider where
  start : ℚ
  stop : ℚ
  step : ℚ
  value : ℚ
  label : String
  deriving DecidableEq, Repr

namespace Cell3

/-- `n = mo.ui.slider(start=100, stop=5000, step=100, value=1000, label="Sample size n")`. -/
def n : Slider := ⟨100, 5000, 100, 1000, "Sample size n"⟩

/-- `noise = mo.ui.slider(start=0.0, stop=2.0, step=0.1, value=0.5, label="Noise σ")`. -/
def noise : Slider := ⟨0, 2, 1/10, 1/2, "Noise σ"⟩

end Cell3

/-- C9.  The two input controls are constructed with exactly the documented
ranges: sample size over `[100, 5000]` with step 100 and default 1000, and
noise σ over `[0.0, 2.0]` with step 0.1 and default 0.5. -/
theorem sliders_have_documented_ranges :
    Cell3.n.start = 100 ∧ Cell3.n.stop = 5000 ∧ Cell3.n.step = 100 ∧
      Cell3.n.value = 1000 ∧ Cell3.noise.start = 0 ∧ Cell3.noise.stop = 2 ∧
      Cell3.noise.step = 1/10 ∧ Cell3.noise.value = 1/2 :=
  ⟨rfl, rfl, rfl, rfl, rfl, rfl, rfl, rfl⟩

/-! ## Cell 7 — the markdown report

Python's fixed-point format specifier rounds its argument half-to-even and
always prints exactly the requested number of digits after the decimal
point.  The formatter is modelled on exact rationals. -/

/-- The decimal digit character for `k % 10`. -/
def digitChar (k : ℕ) : Char :=
  match k with
  | 0 => '0' | 1 => '1' | 2 => '2' | 3 => '3' | 4 => '4'
  | 5 => '5' | 6 => '6' | 7 => '7' | 8 => '8' | _ => '9'

/-- The last `d` decimal digits of `m`, zero-padded to exactly `d`
characters, most significant first. -/
def padDigits : ℕ → ℕ → List Char
  | _, 0 => []
  | m, d+1 => padDigits (m / 10) d ++ [digitChar (m % 10)]

/-- Round to the nearest integer, ties to even (the rounding used by
Python's fixed-point formatting). -/
def roundHalfEven (q : ℚ) : ℤ :=
  let f := ⌊q⌋
  let r := q - f
  if r < 1/2 then f
  else if 1/2 < r then f + 1
  else if f % 2 = 0 then f else f + 1

/-- The Python format expression `v:.df`: `v` rendered in fixed-point
notation with exactly `d` digits after the decimal point. -/
def fmtFixed (q : ℚ) (d : ℕ) : String :=
  let m := roundHalfEven (q * 10 ^ d)
  (if m < 0 then "-" else "") ++ toString (m.natAbs / 10 ^ d)
    ++ "." ++ String.mk (padDigits (m.natAbs % 10 ^ d) d)

/-- Cell 7's f-string: the live-summary markdown embedding the current
slider values, the correlation to 3 decimals and the fitted slope and
intercept to 2 decimals each. -/
def render (nv : ℕ) (sigma c m b : ℚ) : String :=
  "### Live summary\n- n = " ++ toString nv
    ++ "\n- σ = " ++ toString sigma
    ++ "\n- Correlation corr(x, y) = " ++ fmtFixed c 3
    ++ "\n- Fitted model: y-hat = " ++ fmtFixed m 2 ++ " x + " ++ fmtFixed b 2
    ++ "\n\nInterpretation: increasing noise weakens the linear relationship; increasing n stabilizes estimates."

/-- Number of characters after the last `'.'` of a rendered string. -/
def decimalsOf (s : String) : ℕ :=
  ((s.data.reverse).takeWhile fun ch => ch != '.').length

/-- `padDigits` always emits exactly `d` characters. -/
theorem padDigits_length (d : ℕ) : ∀ m, (padDigits m d).length = d := by
  induction d with
  | zero => intro m; rfl
  | succ d ih =>
    intro m
    simp [padDigits, ih]

/-- Digit characters are never the decimal point. -/
theorem digitChar_ne_dot (k : ℕ) : (digitChar k != '.') = true := by
  unfold digitChar
  split <;> decide

/-- No character emitted by `padDigits` is the decimal point. -/
theorem padDigits_mem_ne_dot (d : ℕ) :
    ∀ m, ∀ c ∈ padDigits m d, (c != '.') = true := by
  induction d with
  | zero =>
    intro m c hc
    simp [padDigits] at hc
  | succ d ih =>
    intro m c hc
    simp only [padDigits, List.mem_append, List.mem_singleton] at hc
    rcases hc with hc | rfl
    · exact ih _ _ hc
    · exact digitChar_ne_dot _

/-- `takeWhile` stops exactly at the first failing element. -/
theorem takeWhile_append_not {α : Type} (p : α → Bool) (L : List α) (c : α)
    (R : List α) (hL : ∀ a ∈ L, p a = true) (hc : p c = false) :
    (L ++ c :: R).takeWhile p = L := by
  induction L with
  | nil => simp [List.takeWhile_cons, hc]
  | cons a t ih =>
    have ha := hL a (List.mem_cons_self a t)
    simp [List.takeWhile_cons, ha,
      ih fun x hx => hL x (List.mem_cons_of_mem a hx)]

/-- The fixed-point formatter prints exactly `d` characters after the
decimal point. -/
theorem decimalsOf_fmtFixed (q : ℚ) (d : ℕ) : decimalsOf (fmtFixed q d) = d := by
  unfold decimalsOf fmtFixed
  generalize roundHalfEven (q * 10 ^ d) = m
  have hdata : ((if m < 0 then "-" else "") ++ toString (m.natAbs / 10 ^ d)
        ++ "." ++ String.mk (padDigits (m.natAbs % 10 ^ d) d)).data
      = ((if m < 0 then "-" else "") ++ toString (m.natAbs / 10 ^ d)).data
          ++ '.' :: padDigits (m.natAbs % 10 ^ d) d := by
    simp [String.data_append]
  rw [hdata, List.reverse_append, List.reverse_cons, List.append_assoc,
    List.singleton_append]
  rw [takeWhile_append_not _ _ _ _
    (fun a ha => padDigits_mem_ne_dot d _ a (List.mem_reverse.mp ha))
    (by decide)]
  rw [List.length_reverse, padDigits_length]

/-- C8.  For every fit, the rendered report prints the correlation with
exactly 3 digits after the decimal point and the slope and intercept with
exactly 2, and it embeds the current sample-size and noise slider values:
each formatted field occurs verbatim inside the rendered text. -/
theorem render_report_format (nv : ℕ) (sigma c m b : ℚ) :
    decimalsOf (fmtFixed c 3) = 3 ∧ decimalsOf (fmtFixed m 2) = 2 ∧
      decimalsOf (fmtFixed b 2) = 2 ∧
      (fmtFixed c 3).data <:+: (render nv sigma c m b).data ∧
      (fmtFixed m 2).data <:+: (render nv sigma c m b).data ∧
      (fmtFixed b 2).data <:+: (render nv sigma c m b).data ∧
      (toString nv).data <:+: (render nv sigma c m b).data ∧
      (toString sigma).data <:+: (render nv sigma c m b).data := by
  refine ⟨decimalsOf_fmtFixed c 3, decimalsOf_fmtFixed m 2,
    decimalsOf_fmtFixed b 2, ?_, ?_, ?_, ?_, ?_⟩
  · exact ⟨("### Live summary\n- n = " ++ toString nv ++ "\n- σ = "
        ++ toString sigma ++ "\n- Correlation corr(x, y) = ").data,
      ("\n- Fitted model: y-hat = " ++ fmtFixed m 2 ++ " x + " ++ fmtFixed b 2
        ++ "\n\nInterpretation: increasing noise weakens the linear relationship; increasing n stabilizes estimates.").data,
      by simp [render, String.data_append]⟩
  · exact ⟨("### Live summary\n- n = " ++ toString nv ++ "\n- σ = "
        ++ toString sigma ++ "\n- Correlation corr(x, y) = " ++ fmtFixed c 3
        ++ "\n- Fitted model: y-hat = ").data,
      (" x + " ++ fmtFixed b 2
        ++ "\n\nInterpretation: increasing noise weakens the linear relationship; increasing n stabilizes estimates.").data,
      by simp [render, String.data_append]⟩
  · exact ⟨("### Live summary\n- n = " ++ toString nv ++ "\n- σ = "
        ++ toString sigma ++ "\n- Correlation corr(x, y) = " ++ fmtFixed c 3
        ++ "\n- Fitted model: y-hat = " ++ fmtFixed m 2 ++ " x + ").data,
      ("\n\nInterpretation: increasing noise weakens the linear relationship; increasing n stabilizes estimates." : String).data,
      by simp [render, String.data_append]⟩
  · exact ⟨("### Live summary\n- n = " : String).data,
      ("\n- σ = " ++ toString sigma ++ "\n- Correlation corr(x, y) = "
        ++ fmtFixed c 3 ++ "\n- Fitted model: y-hat = " ++ fmtFixed m 2
        ++ " x + " ++ fmtFixed b 2
        ++ "\n\nInterpretation: increasing noise weakens the linear relationship; increasing n stabilizes estimates.").data,
      by simp [render, String.data_append]⟩
  · exact ⟨("### Live summary\n- n = " ++ toString nv ++ "\n- σ = ").data,
      ("\n- Correlation corr(x, y) = " ++ fmtFixed c 3
        ++ "\n- Fitted model: y-hat = " ++ fmtFixed m 2 ++ " x + "
        ++ fmtFixed b 2
        ++ "\n\nInterpretation: increasing noise weakens the linear relationship; increasing n stabilizes estimates.").data,
      by simp [render, String.data_append]⟩

end Q3
